import Mathlib

/-!
Shallow embedding of src/limiter/memory/memory.go from
ripienaar/stream-replicator.

Timestamps and durations are measured in nanoseconds, as Go `time` does,
and modelled as `Int`.  The Go `map[string]time.Time` is modelled as an
association list `List (String × Int)`; Go map assignment is modelled by
`mapSet`, which overwrites any previous binding of the key.  File-system
state at the final state-file path is modelled by `FileState`; the
fallible steps of `writeCache` are modelled by an explicit fault
injection record `WriteFaults`.  The caller-supplied processing callback
of `ProcessAndRecord` is modelled as a function from the `process` flag
to an optional error, and the gjson field extraction as an abstract
function parameter from (payload, key) to the extracted string.
-/

namespace StreamReplicator

/-- Ten minutes in nanoseconds, the fixed grace period
`10 * time.Minute` used by `readCache` and `scrub`. -/
def tenMinutes : Int := 600000000000

/-- The `Limiter` struct of memory.go (the mutex and logger, which carry
no state relevant to the claims, are omitted). -/
structure Limiter where
  key : String
  age : Int
  topic : String
  statefile : String
  seen : List (String × Int)
deriving DecidableEq

/-- Lookup of a value in the seen map, modelling `t, found := m.seen[value]`. -/
def seenLookup : List (String × Int) → String → Option Int
  | [], _ => none
  | (k, t) :: rest, v => if k = v then some t else seenLookup rest v

/-- Go map assignment `m.seen[value] = now`: the new binding replaces any
previous binding of the same key. -/
def mapSet (seen : List (String × Int)) (value : String) (now : Int) :
    List (String × Int) :=
  (value, now) :: seen.filter (fun p => decide (p.1 ≠ value))

/-- `Limiter.shouldProcess` of memory.go: empty values always process,
unknown values always process, and a known value processes exactly when
its timestamp is before `now - age`. -/
def shouldProcess (m : Limiter) (value : String) (now : Int) : Bool :=
  if value = "" then
    true
  else
    match seenLookup m.seen value with
    | none => true
    | some t =>
      if t < now - m.age then true else false

/-- `Limiter.ProcessAndRecord` of memory.go.  `g` models
`gjson.GetBytes(msg.Data, m.key).String()` as a function of the payload
and the key; `f` models the callback, returning `none` on success.  The
returned pair is the error result and the limiter state after the call. -/
def ProcessAndRecord (g : String → String → String) (m : Limiter)
    (msgData : String) (f : Bool → Option String) (now : Int) :
    Option String × Limiter :=
  if m.key = "" then
    (f true, m)
  else
    match f (shouldProcess m (g msgData m.key) now) with
    | some err => (some err, m)
    | none =>
      if shouldProcess m (g msgData m.key) now then
        (none, { m with seen := mapSet m.seen (g msgData m.key) now })
      else
        (none, m)

/-- The decision taken during a `ProcessAndRecord` call: `true` outright
when no key is configured, otherwise the `shouldProcess` verdict on the
extracted value. -/
def procDecision (g : String → String → String) (m : Limiter) (msgData : String)
    (now : Int) : Bool :=
  if m.key = "" then true else shouldProcess m (g msgData m.key) now

/-- Content of the final state-file path: either no file, or a complete
snapshot parsing to the given entries. -/
inductive FileState where
  | absent : FileState
  | content : List (String × Int) → FileState
deriving DecidableEq

/-- `Limiter.readCache` of memory.go: no-op when no state file is
configured, an error when the seen map is not empty, the `ReadFile`
error when the file is absent, and otherwise the parsed entries with
everything older than `now - age - 10min` pruned.  Returns the error
result and the limiter state after the call. -/
def readCache (m : Limiter) (file : FileState) (now : Int) :
    Option String × Limiter :=
  if m.statefile = "" then
    (none, m)
  else if 0 < m.seen.length then
    (some "last seen cache is not empty", m)
  else
    match file with
    | .absent => (some "no such file or directory", m)
    | .content d =>
      (none, { m with
        seen := d.filter (fun p => !decide (p.2 < now - m.age - tenMinutes)) })

/-- Fault injection for the fallible steps of `writeCache`, in the order
the Go code performs them. -/
structure WriteFaults where
  serializeFails : Bool
  tempCreateFails : Bool
  tempWriteFails : Bool
  tempCloseFails : Bool
  renameFails : Bool
deriving DecidableEq

/-- The fault assignment in which every step succeeds. -/
def noFaults : WriteFaults := ⟨false, false, false, false, false⟩

/-- `Limiter.writeCache` of memory.go: an empty map is skipped without
touching the file; each fallible step (`json.Marshal`, `TempFile`,
`Write`, `Close`, `os.Rename`) aborts on failure, leaving the final path
untouched because all work before the rename happens on the temp file;
only the final atomic rename replaces the content of the final path. -/
def writeCache (m : Limiter) (w : WriteFaults) (file : FileState) :
    Option String × FileState :=
  if m.seen.length = 0 then
    (none, file)
  else if w.serializeFails then
    (some "Could not JSON encode last seen data", file)
  else if w.tempCreateFails then
    (some "Could not create temp file", file)
  else if w.tempWriteFails then
    (some "Could not write to temp file", file)
  else if w.tempCloseFails then
    (some "Could not close temp file", file)
  else if w.renameFails then
    (some "Could not rename file", file)
  else
    (none, .content m.seen)

/-- `Limiter.scrub` of memory.go: delete every entry whose timestamp is
before `now - age - 10min`. -/
def scrub (m : Limiter) (now : Int) : Limiter :=
  { m with
    seen := m.seen.filter (fun p => !decide (p.2 < now - m.age - tenMinutes)) }

/-- Every timestamp stored in the map is at or before `now`. -/
def timestampsAtOrBefore (seen : List (String × Int)) (now : Int) : Prop :=
  ∀ p ∈ seen, p.2 ≤ now

/-- Every timestamp stored in the state file is at or before `now`. -/
def fileTimestampsAtOrBefore : FileState → Int → Prop
  | .absent, _ => True
  | .content d, now => timestampsAtOrBefore d now

/-- If a key does not occur in the map, lookup yields nothing. -/
theorem seenLookup_eq_none_of_not_mem (s : List (String × Int)) (v : String)
    (h : v ∉ s.map Prod.fst) : seenLookup s v = none := by
  induction s with
  | nil => rfl
  | cons hd tl ih =>
    obtain ⟨k, t⟩ := hd
    simp only [List.map_cons, List.mem_cons, not_or] at h
    have hk : ¬ (k = v) := fun hk => h.1 hk.symm
    simp only [seenLookup, if_neg hk]
    exact ih h.2

/-- Lookup after filtering the map on the timestamp alone: under unique
keys, an entry survives the filter exactly when its own timestamp does. -/
theorem seenLookup_filter_timestamp (s : List (String × Int)) (q : Int → Bool)
    (v : String) (hnd : (s.map Prod.fst).Nodup) :
    seenLookup (s.filter (fun p => q p.2)) v
      = match seenLookup s v with
        | none => none
        | some t => if q t then some t else none := by
  induction s with
  | nil => rfl
  | cons hd tl ih =>
    obtain ⟨k, t⟩ := hd
    simp only [List.map_cons, List.nodup_cons] at hnd
    by_cases hk : k = v
    · subst hk
      by_cases hq : q t
      · simp [List.filter_cons, hq, seenLookup]
      · have hnone : seenLookup (tl.filter (fun p => q p.2)) k = none := by
          apply seenLookup_eq_none_of_not_mem
          intro hmem
          apply hnd.1
          obtain ⟨p, hp, hpk⟩ := List.mem_map.mp hmem
          exact hpk ▸ List.mem_map_of_mem Prod.fst (List.mem_of_mem_filter hp)
        simp [List.filter_cons, hq, seenLookup, hnone]
    · have htl := ih hnd.2
      by_cases hq : q t
      · simp [List.filter_cons, hq, seenLookup, hk, htl]
      · simp [List.filter_cons, hq, seenLookup, hk, htl]

/-- C1: the decision operation returns true for the empty value; true
for a value absent from the seen map; and for a value present with
last-seen timestamp t it returns true exactly when the elapsed time
now - t strictly exceeds the configured window, false otherwise. -/
theorem C1_shouldProcess_decision (m : Limiter) (v : String) (now : Int) :
    (v = "" → shouldProcess m v now = true) ∧
    (v ≠ "" → seenLookup m.seen v = none → shouldProcess m v now = true) ∧
    (v ≠ "" → ∀ t, seenLookup m.seen v = some t →
      (shouldProcess m v now = true ↔ m.age < now - t)) := by
  refine ⟨fun h => by simp [shouldProcess, h], fun hv hl => by simp [shouldProcess, hv, hl],
    fun hv t hl => ?_⟩
  by_cases hc : t < now - m.age
  · simp [shouldProcess, hv, hl, hc]
    omega
  · simp [shouldProcess, hv, hl, hc]
    omega

/-- Witness for C1 at concrete inputs covering the three branches. -/
theorem C1_shouldProcess_decision_witness :
    shouldProcess ⟨"sender", 10, "top", "", [("x", 100)]⟩ "" 105 = true ∧
    shouldProcess ⟨"sender", 10, "top", "", [("x", 100)]⟩ "y" 105 = true ∧
    (shouldProcess ⟨"sender", 10, "top", "", [("x", 100)]⟩ "x" 105 = true ↔
      (10 : Int) < 105 - 100) := by
  refine ⟨(C1_shouldProcess_decision _ "" 105).1 rfl,
    (C1_shouldProcess_decision _ "y" 105).2.1 (by decide) (by decide),
    (C1_shouldProcess_decision _ "x" 105).2.2 (by decide) 100 (by decide)⟩

/-- Exhaustive case analysis of a `ProcessAndRecord` call: either the
call returns the callback verdict with the limiter untouched, or the
callback succeeded on a true decision and exactly the extracted value
was re-recorded at `now`. -/
theorem ProcessAndRecord_cases (g : String → String → String) (m : Limiter)
    (msgData : String) (f : Bool → Option String) (now : Int) :
    ProcessAndRecord g m msgData f now = (f (procDecision g m msgData now), m) ∨
    (f (procDecision g m msgData now) = none ∧ m.key ≠ "" ∧
      shouldProcess m (g msgData m.key) now = true ∧
      ProcessAndRecord g m msgData f now =
        (none, { m with seen := mapSet m.seen (g msgData m.key) now })) := by
  by_cases hk : m.key = ""
  · left
    simp [ProcessAndRecord, procDecision, hk]
  · have hpd : procDecision g m msgData now = shouldProcess m (g msgData m.key) now := by
      simp [procDecision, hk]
    cases hf : f (shouldProcess m (g msgData m.key) now) with
    | some e₀ =>
      left
      simp [ProcessAndRecord, hk, hpd, hf]
    | none =>
      cases hp : shouldProcess m (g msgData m.key) now with
      | false =>
        left
        have hff : f false = none := by rw [← hp]; exact hf
        simp [ProcessAndRecord, hk, hp, hff, hpd]
      | true =>
        right
        have hft : f true = none := by rw [← hp]; exact hf
        refine ⟨by rw [hpd, hf], hk, rfl, ?_⟩
        simp [ProcessAndRecord, hk, hp, hft]

/-- C2: ProcessAndRecord mutates the seen map only when the decision was
true and the callback succeeded; a failing callback returns its error
with the limiter exactly as it was; and a false decision leaves the
stored state untouched. -/
theorem C2_processAndRecord_frame (g : String → String → String) (m : Limiter)
    (msgData : String) (f : Bool → Option String) (now : Int) :
    ((ProcessAndRecord g m msgData f now).2 ≠ m →
      (ProcessAndRecord g m msgData f now).1 = none ∧ m.key ≠ "" ∧
        shouldProcess m (g msgData m.key) now = true) ∧
    (∀ e, f (procDecision g m msgData now) = some e →
      ProcessAndRecord g m msgData f now = (some e, m)) ∧
    (m.key ≠ "" → shouldProcess m (g msgData m.key) now = false →
      (ProcessAndRecord g m msgData f now).2 = m) := by
  rcases ProcessAndRecord_cases g m msgData f now with h | ⟨hfn, hk, hp, h⟩
  · exact ⟨fun hne => absurd (by rw [h]) hne, fun e he => by rw [h, he],
      fun _ _ => by rw [h]⟩
  · refine ⟨fun _ => ⟨by rw [h], hk, hp⟩,
      fun e he => absurd he (by rw [hfn]; simp),
      fun _ hfalse => absurd hp (by rw [hfalse]; simp)⟩

/-- Witness for C2: a failing callback returns its error with the state
unchanged, and a suppressed message leaves the state unchanged. -/
theorem C2_processAndRecord_frame_witness :
    ProcessAndRecord (fun _ _ => "x") ⟨"k", 10, "top", "", []⟩ "payload"
        (fun _ => some "boom") 5 = (some "boom", ⟨"k", 10, "top", "", []⟩) ∧
    (ProcessAndRecord (fun _ _ => "x") ⟨"k", 10, "top", "", [("x", 5)]⟩ "payload"
        (fun _ => none) 6).2 = ⟨"k", 10, "top", "", [("x", 5)]⟩ := by
  constructor
  · exact (C2_processAndRecord_frame _ _ _ _ _).2.1 "boom" rfl
  · exact (C2_processAndRecord_frame _ _ _ _ _).2.2 (by decide) (by decide)

/-- C3 is refuted: ProcessAndRecord has no empty-value guard before its
record step, so a successful processed call whose extracted value is the
empty string creates a map entry keyed by the empty string. -/
theorem C3_counterexample :
    (ProcessAndRecord (fun _ _ => "") ⟨"k", 10, "top", "", []⟩ "payload"
        (fun _ => none) 5).2.seen = [("", 5)] := by
  rfl

/-- C3 amended: when the configured key is non-empty, the extracted
value is the empty string and the callback succeeds, the call processes
and records the binding of the empty string to `now` in the seen map. -/
theorem C3_empty_value_recorded (g : String → String → String) (m : Limiter)
    (msgData : String) (f : Bool → Option String) (now : Int)
    (hk : m.key ≠ "") (hv : g msgData m.key = "") (hf : f true = none) :
    (ProcessAndRecord g m msgData f now).2.seen = mapSet m.seen "" now := by
  have hsp : shouldProcess m "" now = true := by simp [shouldProcess]
  simp [ProcessAndRecord, hk, hv, hsp, hf]

/-- Witness for C3 amended at a concrete input. -/
theorem C3_empty_value_recorded_witness :
    (ProcessAndRecord (fun _ _ => "") ⟨"k", 10, "top", "", [("a", 1)]⟩ "payload"
        (fun _ => none) 5).2.seen = mapSet [("a", 1)] "" 5 :=
  C3_empty_value_recorded _ _ _ _ 5 (by decide) rfl rfl

/-- C9: at exactly the window boundary, now - t = age, the decision is
false and the message is suppressed. -/
theorem C9_boundary_suppressed (m : Limiter) (v : String) (t now : Int)
    (hv : v ≠ "") (hl : seenLookup m.seen v = some t) (hb : now - t = m.age) :
    shouldProcess m v now = false := by
  have hc : ¬ t < now - m.age := by omega
  simp [shouldProcess, hv, hl, hc]

/-- Witness for C9: a value last seen exactly one window ago is suppressed. -/
theorem C9_boundary_suppressed_witness :
    shouldProcess ⟨"sender", 10, "top", "", [("x", 90)]⟩ "x" 100 = false :=
  C9_boundary_suppressed _ "x" 90 100 (by decide) (by decide) (by decide)

/-- C7: with a state directory configured, a load into a non-empty store
returns the contract error and leaves the limiter untouched, whatever
the file holds (the result does not depend on the file). -/
theorem C7_nonempty_store_rejected (m : Limiter) (file : FileState) (now : Int)
    (hs : m.statefile ≠ "") (hne : m.seen ≠ []) :
    readCache m file now = (some "last seen cache is not empty", m) := by
  have hlen : 0 < m.seen.length := List.length_pos.mpr hne
  simp [readCache, hs, hlen]

/-- Witness for C7 at a concrete non-empty store. -/
theorem C7_nonempty_store_rejected_witness :
    readCache ⟨"k", 10, "top", "/state/top.json", [("a", 1)]⟩ .absent 0
      = (some "last seen cache is not empty",
         ⟨"k", 10, "top", "/state/top.json", [("a", 1)]⟩) :=
  C7_nonempty_store_rejected _ _ 0 (by decide) (by decide)

/-- C6 is refuted: with a state directory configured and the state file
absent, readCache surfaces the read error rather than succeeding (the
Go code does not special-case a missing file). -/
theorem C6_counterexample :
    (readCache ⟨"k", 10, "top", "/state/top.json", []⟩ .absent 0).1 ≠ none := by
  decide

/-- C6 amended: with a state directory configured, an empty store and an
absent state file, readCache returns the read error but leaves the
limiter, and hence its empty store, untouched; its caller ignores the
error, so startup proceeds with the empty store. -/
theorem C6_absent_file_error (m : Limiter) (now : Int)
    (hs : m.statefile ≠ "") (he : m.seen = []) :
    readCache m .absent now = (some "no such file or directory", m) := by
  simp [readCache, hs, he]

/-- Witness for C6 amended at a concrete input. -/
theorem C6_absent_file_error_witness :
    readCache ⟨"k", 10, "top", "/state/top.json", []⟩ .absent 0
      = (some "no such file or directory",
         ⟨"k", 10, "top", "/state/top.json", []⟩) :=
  C6_absent_file_error _ 0 (by decide) rfl

/-- C4: snapshotting and then reloading into an empty store at the same
instant restores exactly the entries whose age does not exceed
window + 10 minutes; older entries are pruned during the load. -/
theorem C4_persistence_roundtrip (m : Limiter) (now : Int)
    (hs : m.statefile ≠ "") :
    (readCache { m with seen := [] } (writeCache m noFaults .absent).2 now).2.seen
      = m.seen.filter (fun p => decide (now - p.2 ≤ m.age + tenMinutes)) := by
  by_cases hseen : m.seen = []
  · simp [writeCache, readCache, hseen, hs]
  · have hlen : ¬ (m.seen.length = 0) := by
      simpa [List.length_eq_zero] using hseen
    have hwrite : (writeCache m noFaults .absent).2 = .content m.seen := by
      simp [writeCache, noFaults, hlen]
    rw [hwrite]
    have hread : (readCache { m with seen := [] } (.content m.seen) now).2.seen
        = m.seen.filter (fun p => !decide (p.2 < now - m.age - tenMinutes)) := by
      simp [readCache, hs]
    rw [hread]
    apply List.filter_congr
    intro p _
    rw [← decide_not]
    exact decide_eq_decide.mpr (by omega)

/-- Witness for C4: a fresh entry survives the round trip, an entry
older than window plus ten minutes is pruned. -/
theorem C4_persistence_roundtrip_witness :
    (readCache ⟨"k", 10, "top", "/state/top.json", []⟩
        (writeCache ⟨"k", 10, "top", "/state/top.json",
            [("a", 100), ("b", -700000000000)]⟩ noFaults .absent).2 200).2.seen
      = [("a", 100)] := by
  have h := C4_persistence_roundtrip
    ⟨"k", 10, "top", "/state/top.json", [("a", 100), ("b", -700000000000)]⟩ 200
    (by decide)
  exact h.trans (by decide)

/-- C5 is refuted: writeCache called on an empty map returns success
without touching the final path, so after a successful call the final
path need not hold the serialization of the current map. -/
theorem C5_counterexample :
    (writeCache ⟨"k", 10, "top", "/state/top.json", []⟩ noFaults
        (.content [("a", 0)])).1 = none ∧
    (writeCache ⟨"k", 10, "top", "/state/top.json", []⟩ noFaults
        (.content [("a", 0)])).2
      ≠ .content (Limiter.seen ⟨"k", 10, "top", "/state/top.json", []⟩) := by
  decide

/-- C5 amended: every failing step of writeCache leaves the final path
untouched; a successful call leaves the final path untouched when the
map is empty (the write is skipped) and otherwise installs exactly the
new complete serialization, never a partial write. -/
theorem C5_writeCache_atomic (m : Limiter) (w : WriteFaults) (file : FileState) :
    (∀ e, (writeCache m w file).1 = some e → (writeCache m w file).2 = file) ∧
    ((writeCache m w file).1 = none →
      (m.seen = [] ∧ (writeCache m w file).2 = file) ∨
      (m.seen ≠ [] ∧ (writeCache m w file).2 = .content m.seen)) := by
  constructor
  · intro e he
    unfold writeCache at he ⊢
    split_ifs at he ⊢ <;> simp_all
  · intro hn
    unfold writeCache at hn ⊢
    split_ifs at hn ⊢ <;> simp_all [List.length_eq_zero]

/-- Witness for C5 amended: a failing serialization step leaves the file
untouched, and a fully successful write installs the new snapshot. -/
theorem C5_writeCache_atomic_witness :
    (writeCache ⟨"k", 10, "top", "/state/top.json", [("a", 3)]⟩
        ⟨true, false, false, false, false⟩ .absent).2 = .absent ∧
    (writeCache ⟨"k", 10, "top", "/state/top.json", [("a", 3)]⟩
        noFaults .absent).2 = .content [("a", 3)] := by
  constructor
  · exact (C5_writeCache_atomic _ _ _).1 "Could not JSON encode last seen data"
      (by decide)
  · rcases (C5_writeCache_atomic ⟨"k", 10, "top", "/state/top.json", [("a", 3)]⟩
        noFaults .absent).2 (by decide) with h | h
    · exact absurd h.1 (by decide)
    · exact h.2

/-- Go map assignment at the current instant preserves the
no-future-timestamps invariant. -/
theorem timestampsAtOrBefore_mapSet (s : List (String × Int)) (v : String)
    (now : Int) (h : timestampsAtOrBefore s now) :
    timestampsAtOrBefore (mapSet s v now) now := by
  intro p hp
  rcases List.mem_cons.mp hp with rfl | hp
  · exact le_refl now
  · exact h p (List.mem_of_mem_filter hp)

/-- C8 is refuted: readCache does not filter future timestamps, so
hydration from a state file holding a timestamp later than the load
time installs an entry dated in the future. -/
theorem C8_counterexample :
    ¬ timestampsAtOrBefore
        (readCache ⟨"k", 0, "top", "/state/top.json", []⟩
          (.content [("a", 5)]) 0).2.seen 0 := by
  intro hall
  have hseen : (readCache ⟨"k", 0, "top", "/state/top.json", []⟩
      (.content [("a", 5)]) 0).2.seen = [("a", 5)] := by decide
  have hmem : (("a", (5 : Int))) ∈ (readCache ⟨"k", 0, "top", "/state/top.json", []⟩
      (.content [("a", 5)]) 0).2.seen := by
    rw [hseen]
    exact List.mem_singleton.mpr rfl
  simpa using hall _ hmem

/-- C8 amended: a ProcessAndRecord call preserves the invariant that no
stored timestamp lies in the future, since the record step always
stores the current instant; hydration via readCache preserves it
provided every timestamp in the state file is at or before the load
time, which holds for files this program wrote earlier, but readCache
itself does not filter future timestamps. -/
theorem C8_no_future_timestamps (g : String → String → String) (m : Limiter)
    (msgData : String) (f : Bool → Option String) (file : FileState) (now : Int)
    (hm : timestampsAtOrBefore m.seen now) :
    timestampsAtOrBefore (ProcessAndRecord g m msgData f now).2.seen now ∧
    (fileTimestampsAtOrBefore file now →
      timestampsAtOrBefore (readCache m file now).2.seen now) := by
  constructor
  · rcases ProcessAndRecord_cases g m msgData f now with h | ⟨_, _, _, h⟩
    · rw [h]
      exact hm
    · rw [h]
      exact timestampsAtOrBefore_mapSet _ _ _ hm
  · intro hfile
    by_cases hs : m.statefile = ""
    · have hr : (readCache m file now).2.seen = m.seen := by simp [readCache, hs]
      rw [hr]
      exact hm
    · by_cases hne : 0 < m.seen.length
      · have hr : (readCache m file now).2.seen = m.seen := by
          simp [readCache, hs, hne]
        rw [hr]
        exact hm
      · cases file with
        | absent =>
          have hr : (readCache m .absent now).2.seen = m.seen := by
            simp [readCache, hs, hne]
          rw [hr]
          exact hm
        | content d =>
          have hr : (readCache m (.content d) now).2.seen
              = d.filter (fun p => !decide (p.2 < now - m.age - tenMinutes)) := by
            simp [readCache, hs, hne]
          rw [hr]
          intro p hp
          exact hfile p (List.mem_of_mem_filter hp)

/-- Witness for C8 amended: both the recording and the hydration branch
at concrete inputs with all timestamps in the past. -/
theorem C8_no_future_timestamps_witness :
    timestampsAtOrBefore
      (ProcessAndRecord (fun _ _ => "x")
        ⟨"k", 10, "top", "/state/top.json", [("a", 3)]⟩ "payload"
        (fun _ => none) 5).2.seen 5 ∧
    timestampsAtOrBefore
      (readCache ⟨"k", 10, "top", "/state/top.json", [("a", 3)]⟩
        (.content [("b", 4)]) 5).2.seen 5 := by
  have hm : timestampsAtOrBefore [(("a" : String), (3 : Int))] 5 := by
    intro p hp
    rcases List.mem_singleton.mp hp with rfl
    decide
  have hfile : fileTimestampsAtOrBefore (.content [(("b" : String), (4 : Int))]) 5 := by
    intro p hp
    rcases List.mem_singleton.mp hp with rfl
    decide
  exact ⟨(C8_no_future_timestamps (fun _ _ => "x") _ "payload" (fun _ => none)
      (.content [("b", 4)]) 5 hm).1,
    (C8_no_future_timestamps (fun _ _ => "x") _ "payload" (fun _ => none)
      (.content [("b", 4)]) 5 hm).2 hfile⟩

/-- C10: scrubbing at an instant never changes a decision taken at that
same instant: every entry scrub removes was already past the window, so
its removal flips nothing, and untouched entries decide as before. -/
theorem C10_scrub_preserves_decision (m : Limiter) (v : String) (now : Int)
    (hnd : (m.seen.map Prod.fst).Nodup) :
    shouldProcess (scrub m now) v now = shouldProcess m v now := by
  by_cases hv : v = ""
  · simp [shouldProcess, hv]
  · have hage : (scrub m now).age = m.age := rfl
    have hL : seenLookup (scrub m now).seen v
        = match seenLookup m.seen v with
          | none => none
          | some t =>
            if (!decide (t < now - m.age - tenMinutes)) then some t else none :=
      seenLookup_filter_timestamp m.seen
        (fun t => !decide (t < now - m.age - tenMinutes)) v hnd
    cases hl : seenLookup m.seen v with
    | none =>
      have h1 : seenLookup (scrub m now).seen v = none := by rw [hL, hl]
      simp [shouldProcess, hv, hl, h1]
    | some t =>
      by_cases hk : t < now - m.age - tenMinutes
      · have h1 : seenLookup (scrub m now).seen v = none := by
          rw [hL, hl]
          simp [hk]
        have h2 : t < now - m.age := by
          have hten : (0 : Int) < tenMinutes := by decide
          omega
        simp [shouldProcess, hv, hl, h1, h2]
      · have h1 : seenLookup (scrub m now).seen v = some t := by
          rw [hL, hl]
          simp [hk]
        simp [shouldProcess, hv, hl, h1, hage]

/-- Witness for C10 on a concrete two-entry store with unique keys. -/
theorem C10_scrub_preserves_decision_witness :
    shouldProcess (scrub ⟨"k", 10, "top", "", [("a", 100), ("b", 90)]⟩ 100) "a" 100
      = shouldProcess ⟨"k", 10, "top", "", [("a", 100), ("b", 90)]⟩ "a" 100 :=
  C10_scrub_preserves_decision _ "a" 100 (by decide)

end StreamReplicator
